import Mathlib

/-!
# TÖVE vector graphics core: change flags, lazy trajectories, mesh buffers

A shallow embedding of the inline member functions of `graphics.h`,
`trajectory.h` and `mesh/mesh.h`, followed by the properties proved about them.

Conventions of the embedding:

* `ToveChangeFlags` (a `uint32_t` bit mask) and the `uint8_t` dirty mask are
  natural numbers combined with `&&&` and `|||`; these operations never leave
  the range of the machine type, so no reduction modulo `2^w` is needed.
* `int` values are integers. The only `int` arithmetic in the embedded
  functions is `npts * 2`, `n - 1` (taken when `n > 0`) and `from + n`; it is
  done in `ℤ`, which agrees with the source wherever the source is defined
  (signed overflow is undefined there). The conversion to `size_t` in
  `copyVertexData` is an explicit reduction modulo `2^64`.
* `float` coordinates are an abstract type: the embedded functions only store,
  load and compare them, and use the literal `0.0`.
* A `const` member function that touches `mutable` fields returns the new
  object state next to its result.
* Member functions that are only declared in the headers (their bodies live in
  the `.cpp` files) are parameters of the embedding, and every embedded
  function returns the list of calls it made to them.
-/

namespace Tove

/-! ## graphics.h -/

/-- Bit values of the `CHANGED_*` enumerators used by `Graphics::changed`.
The enumeration is declared in the interface header; its values are taken
as parameters. -/
structure ChangeFlagBits where
  CHANGED_GEOMETRY : Nat
  CHANGED_POINTS : Nat
  CHANGED_BOUNDS : Nat
  CHANGED_EXACT_BOUNDS : Nat
  deriving Repr, DecidableEq

/-- A `float[4]` bounding box: `b0, b1` the minimum corner, `b2, b3` the
maximum corner. -/
structure Bounds (α : Type) where
  b0 : α
  b1 : α
  b2 : α
  b3 : α
  deriving Repr, DecidableEq

/-- The fields of `class Graphics` read or written by the embedded functions:
the ordered paths and the pending change mask. -/
structure Graphics (P : Type) where
  paths : List P
  changes : Nat
  deriving Repr, DecidableEq

/-- The member function `Graphics::changed(flags)`. -/
def Graphics.changed {P : Type} (K : ChangeFlagBits) (g : Graphics P) (flags : Nat) :
    Graphics P :=
  let flags :=
    if flags &&& (K.CHANGED_GEOMETRY ||| K.CHANGED_POINTS ||| K.CHANGED_BOUNDS) ≠ 0 then
      flags ||| (K.CHANGED_BOUNDS ||| K.CHANGED_EXACT_BOUNDS)
    else flags
  { g with changes := g.changes ||| flags }

/-- Modelled from the spec: `Graphics::fetchChanges(flags, clearAll)`, which
`graphics.h` declares without a body. It "returns the subset of currently-set
flags matching the query and, unless told to preserve state, clears them";
`clearAll` drops every pending flag instead of only the fetched ones. -/
def Graphics.fetchChanges {P : Type} (g : Graphics P) (flags : Nat) (clearAll : Bool) :
    Nat × Graphics P :=
  let c := g.changes &&& flags
  (c, { g with changes := if clearAll then 0 else g.changes ^^^ c })

/-- The library function `std::min(a, b)`: `b` when `b < a`, else `a`. -/
def stdMin {α : Type} [LT α] [DecidableRel (fun a b : α => a < b)] (a b : α) : α :=
  if b < a then b else a

/-- The library function `std::max(a, b)`: `b` when `a < b`, else `a`. -/
def stdMax {α : Type} [LT α] [DecidableRel (fun a b : α => a < b)] (a b : α) : α :=
  if a < b then b else a

/-- The loop of `Graphics::computeBounds`, started at index `i` with the paths
from position `i` on still to visit. -/
def computeBoundsLoop {P α : Type} [LT α] [DecidableRel (fun a b : α => a < b)]
    (get : P → Bounds α) : Nat → List P → Bounds α → Bounds α
  | _, [], bounds => bounds
  | i, p :: rest, bounds =>
    let pathBounds := get p
    let bounds :=
      if i = 0 then
        { b0 := pathBounds.b0, b1 := pathBounds.b1, b2 := pathBounds.b2, b3 := pathBounds.b3 }
      else
        { b0 := stdMin bounds.b0 pathBounds.b0
          b1 := stdMin bounds.b1 pathBounds.b1
          b2 := stdMax bounds.b2 pathBounds.b2
          b3 := stdMax bounds.b3 pathBounds.b3 }
    computeBoundsLoop get (i + 1) rest bounds

/-- The member function `Graphics::computeBounds(bounds, get)`: the output array after the call. -/
def Graphics.computeBounds {P α : Type} [LT α] [DecidableRel (fun a b : α => a < b)]
    (g : Graphics P) (bounds : Bounds α) (get : P → Bounds α) : Bounds α :=
  computeBoundsLoop get 0 g.paths bounds

/-- The union box of the per-path boxes, in the spec's words: each of `b0`, `b1`
is the least, and each of `b2`, `b3` the greatest, of that coordinate over the
boxes `get p` of the paths. -/
def IsUnionBox {P α : Type} [LE α] (get : P → Bounds α) (paths : List P) (r : Bounds α) :
    Prop :=
  ((∃ p ∈ paths, r.b0 = (get p).b0) ∧ ∀ p ∈ paths, r.b0 ≤ (get p).b0) ∧
  ((∃ p ∈ paths, r.b1 = (get p).b1) ∧ ∀ p ∈ paths, r.b1 ≤ (get p).b1) ∧
  ((∃ p ∈ paths, r.b2 = (get p).b2) ∧ ∀ p ∈ paths, (get p).b2 ≤ r.b2) ∧
  ((∃ p ∈ paths, r.b3 = (get p).b3) ∧ ∀ p ∈ paths, (get p).b3 ≤ r.b3)

/-! ## trajectory.h -/

/-- Ways an embedded call can stop instead of returning: an access outside the
allocated buffer, or an `assert` that does not hold. -/
inductive Fault where
  | outOfBuffer
  | assertionFailed
  deriving Repr, DecidableEq

/-- The enumerator `DIRTY_BOUNDS` of the anonymous enum in `class Trajectory`. -/
def DIRTY_BOUNDS : Nat := 1

/-- The enumerator `DIRTY_COMMANDS` of the anonymous enum in `class Trajectory`. -/
def DIRTY_COMMANDS : Nat := 2

/-- The enumerator `DIRTY_COEFFICIENTS` of the anonymous enum in `class Trajectory`. -/
def DIRTY_COEFFICIENTS : Nat := 4

/-- The enumerator `DIRTY_CURVE_BOUNDS` of the anonymous enum in `class Trajectory`. -/
def DIRTY_CURVE_BOUNDS : Nat := 8

/-- The struct `Trajectory::Command`; `prim` holds the float parameters of the
line/rect/ellipse union. -/
structure Command (V : Type) where
  type : Nat
  dirty : Bool
  index : Nat
  direction : Int
  prim : List V
  deriving Repr, DecidableEq

/-- The fields of `NSVGpath` used by `Trajectory`: the point buffer `pts`
(two floats per point), the point count `npts` and the `closed` flag. -/
structure NSVGpath (V : Type) where
  pts : List V
  npts : Int
  closed : Bool
  deriving Repr, DecidableEq

/-- The data members of `class Trajectory`; a `CurveData` record is kept as the
list of its floats. -/
structure Trajectory (V : Type) where
  commands : List (Command V)
  curves : List (List V)
  dirty : Nat
  nsvg : NSVGpath V
  deriving Repr, DecidableEq

/-- Calls to the member functions of `Trajectory` that the header only
declares. -/
inductive Call where
  | updateCommands
  | updateCurveData (flags : Nat)
  | changed (flags : Nat)
  deriving Repr, DecidableEq

/-- What a `const` member function of `Trajectory` can write: the `mutable`
members `commands`, `curves` and `dirty`, and the floats behind the pointer
`nsvg.pts` (as `getMutablePoints` shows). -/
structure MutableState (V : Type) where
  commands : List (Command V)
  curves : List (List V)
  dirty : Nat
  pts : List V
  deriving Repr, DecidableEq

/-- The trajectory after a `const` member function wrote `m`. -/
def Trajectory.withMutable {V : Type} (t : Trajectory V) (m : MutableState V) :
    Trajectory V :=
  { commands := m.commands
    curves := m.curves
    dirty := m.dirty
    nsvg := { t.nsvg with pts := m.pts } }

/-- The member functions of `Trajectory` that `trajectory.h` declares without a
body: the `const` functions `updateCommands` and `updateCurveData` give the
writable state they leave, the non-`const` `changed` gives the whole new
state. -/
structure Ext (V : Type) where
  updateCommands : Trajectory V → MutableState V
  updateCurveData : Nat → Trajectory V → MutableState V
  changed : Nat → Trajectory V → Trajectory V

/-- The member function `Trajectory::commit()`. -/
def Trajectory.commit {V : Type} (ext : Ext V) (t : Trajectory V) :
    Trajectory V × List Call :=
  if t.dirty &&& DIRTY_COMMANDS ≠ 0 then
    (t.withMutable (ext.updateCommands t), [Call.updateCommands])
  else (t, [])

/-- The member function `Trajectory::ensureCurveData(flags)`. -/
def Trajectory.ensureCurveData {V : Type} (ext : Ext V) (t : Trajectory V) (flags : Nat) :
    Trajectory V × List Call :=
  if t.dirty &&& flags ≠ 0 then
    (t.withMutable (ext.updateCurveData flags t), [Call.updateCurveData flags])
  else (t, [])

/-- The member function `Trajectory::getNumPoints()`. -/
def Trajectory.getNumPoints {V : Type} (t : Trajectory V) : Int :=
  t.nsvg.npts

/-- The member function `Trajectory::isClosed()`. -/
def Trajectory.isClosed {V : Type} (t : Trajectory V) : Bool :=
  t.nsvg.closed

/-- The member function `Trajectory::getLoveNumPoints()`. -/
def Trajectory.getLoveNumPoints {V : Type} (t : Trajectory V) : Int :=
  let n := t.getNumPoints
  if t.isClosed && decide (n > 0) then n - 1 else n

/-- The member function `Trajectory::getPoints()`: the contents of the returned buffer, the state
after the call and the calls made. -/
def Trajectory.getPoints {V : Type} (ext : Ext V) (t : Trajectory V) :
    List V × Trajectory V × List Call :=
  let r := t.commit ext
  (r.1.nsvg.pts, r.1, r.2)

/-- The member function `Trajectory::getValue(index)`: the returned float, the state after the call
and the calls made. Reading past the end of the point buffer is a fault. -/
def Trajectory.getValue {V : Type} [Zero V] (ext : Ext V) (t : Trajectory V) (index : Int) :
    Except Fault (V × Trajectory V × List Call) :=
  if index ≥ 0 ∧ index < t.nsvg.npts * 2 then
    let r := t.commit ext
    match r.1.nsvg.pts[index.toNat]? with
    | some v => Except.ok (v, r.1, r.2)
    | none => Except.error Fault.outOfBuffer
  else
    Except.ok (0, t, [])

/-- The member function `Trajectory::setValue(index, value)`: the state after the call and the
calls made. Writing past the end of the point buffer is a fault. -/
def Trajectory.setValue {V : Type} (K : ChangeFlagBits) (ext : Ext V) (t : Trajectory V)
    (index : Int) (value : V) : Except Fault (Trajectory V × List Call) :=
  if index ≥ 0 ∧ index < t.nsvg.npts * 2 then
    let r := t.commit ext
    if index.toNat < r.1.nsvg.pts.length then
      let t2 : Trajectory V :=
        { r.1 with nsvg := { r.1.nsvg with pts := r.1.nsvg.pts.set index.toNat value } }
      Except.ok (ext.changed K.CHANGED_POINTS t2, r.2 ++ [Call.changed K.CHANGED_POINTS])
    else Except.error Fault.outOfBuffer
  else
    Except.ok (t, [])

/-- An implementation of the out-of-line members used to run the embedding on
concrete data: each recomputation clears the whole dirty mask and touches
nothing else, and `changed` marks bounds, coefficients and curve bounds
dirty. -/
def sampleExt : Ext Int where
  updateCommands := fun t =>
    { commands := t.commands, curves := t.curves, dirty := 0, pts := t.nsvg.pts }
  updateCurveData := fun _ t =>
    { commands := t.commands, curves := t.curves, dirty := 0, pts := t.nsvg.pts }
  changed := fun _ t => { t with dirty := t.dirty ||| 13 }

/-- A closed trajectory of two points `(10, 20)`, `(30, 40)` with nothing
dirty. -/
def sampleTrajectory : Trajectory Int where
  commands := []
  curves := []
  dirty := 0
  nsvg := { pts := [10, 20, 30, 40], npts := 2, closed := true }

/-- The same points with the commands marked dirty. -/
def dirtyTrajectory : Trajectory Int where
  commands := []
  curves := []
  dirty := 2
  nsvg := { pts := [10, 20, 30, 40], npts := 2, closed := true }

/-- Flag values used to run the embedding on concrete data. -/
def sampleFlags : ChangeFlagBits where
  CHANGED_GEOMETRY := 8
  CHANGED_POINTS := 4
  CHANGED_BOUNDS := 32
  CHANGED_EXACT_BOUNDS := 64

/-! ## mesh/mesh.h -/

/-- The data members of `class AbstractMesh` used by the embedded functions:
the vertex buffer as bytes, the vertex count (`int32_t`), the stride
(`uint16_t`) and the coalesced triangle indices. -/
structure AbstractMesh where
  mVertices : List Nat
  mVertexCount : Int
  mStride : Nat
  mCoalescedTriangles : List Nat
  deriving Repr, DecidableEq

/-- Calls to `AbstractMesh::reserve`, which the header only declares. -/
inductive MeshCall where
  | reserve (n : Int)
  deriving Repr, DecidableEq

/-- The view `Vertices(mVertices, mStride, from)` handed out by
`AbstractMesh::vertices`. -/
structure Vertices where
  data : List Nat
  stride : Nat
  first : Int
  deriving Repr, DecidableEq

/-- The member function `AbstractMesh::clip(n)`. -/
def AbstractMesh.clip (m : AbstractMesh) (n : Int) : AbstractMesh :=
  { m with mVertexCount := stdMin m.mVertexCount n }

/-- The member function `AbstractMesh::vertices(from, n)`: the view, the mesh after the call and
the calls made to `reserve`. -/
def AbstractMesh.vertices (reserve : AbstractMesh → Int → AbstractMesh) (m : AbstractMesh)
    (first n : Int) : Vertices × AbstractMesh × List MeshCall :=
  let r : AbstractMesh × List MeshCall :=
    if first + n > m.mVertexCount then
      (reserve m (first + n), [MeshCall.reserve (first + n)])
    else (m, [])
  ({ data := r.1.mVertices, stride := r.1.mStride, first := first }, r.1, r.2)

/-- The member function `AbstractMesh::getVertexCount()`. -/
def AbstractMesh.getVertexCount (m : AbstractMesh) : Int :=
  m.mVertexCount

/-- The value of `const size_t size = mStride * mVertexCount`: the `int`
product converted to the 64-bit `size_t`. -/
def AbstractMesh.vertexByteSize (m : AbstractMesh) : Nat :=
  (((m.mStride : Int) * m.mVertexCount) % (2 : Int) ^ 64).toNat

/-- The member function `AbstractMesh::copyVertexData(buffer, bufferByteSize)`: the destination
buffer and the mesh after the call; a failing `assert` is a fault. -/
def AbstractMesh.copyVertexData (m : AbstractMesh) (buffer : List Nat) (bufferByteSize : Nat) :
    Except Fault (List Nat × AbstractMesh) :=
  let size := m.vertexByteSize
  if bufferByteSize = size then
    Except.ok (m.mVertices.take size ++ buffer.drop size, m)
  else Except.error Fault.assertionFailed

/-- A mesh of two vertices with stride 3 whose buffer has room for three. -/
def sampleMesh : AbstractMesh where
  mVertices := [1, 2, 3, 4, 5, 6, 7, 8, 9]
  mVertexCount := 2
  mStride := 3
  mCoalescedTriangles := []

/-- A `reserve` used to run the embedding on concrete data: it raises the
vertex count to `n` and pads the buffer with zero bytes up to `n` vertices. -/
def sampleReserve (m : AbstractMesh) (n : Int) : AbstractMesh :=
  { m with
    mVertexCount := n
    mVertices := m.mVertices ++ List.replicate (m.mStride * n.toNat - m.mVertices.length) 0 }

/-- A `vec2`. -/
structure vec2 (V : Type) where
  x : V
  y : V
  deriving Repr, DecidableEq

/-- The data members of `class SubpathCleaner`; `vanishing` lists the vertex
indices recorded as vanishing. -/
structure SubpathCleaner (V : Type) where
  allocated : Int
  pts : List (vec2 V)
  good : List Bool
  indices : List Nat
  n : Nat
  vanishing : List Nat
  deriving Repr, DecidableEq

/-- The fields of `class Submesh`: the triangle cache (of a type `C` declared
elsewhere) and the cleaner; the mesh behind `mMesh` is passed alongside. -/
structure Submesh (C V : Type) where
  mTriangles : C
  mCleaner : SubpathCleaner V

/-- The member function `Submesh::vertices(from, n)`. -/
def Submesh.vertices (reserve : AbstractMesh → Int → AbstractMesh) (mesh : AbstractMesh)
    (first n : Int) : Vertices × AbstractMesh × List MeshCall :=
  mesh.vertices reserve first n

/-- The member function `Submesh::findCachedTriangulation(trianglesChanged)`; `find` stands for
`TriangleCache::findCachedTriangulation`, which receives the vertex view and
the `trianglesChanged` reference. Returns the result, the new value of
`trianglesChanged`, the submesh and mesh after the call and the calls made to
`reserve`. -/
def Submesh.findCachedTriangulation {C V : Type}
    (reserve : AbstractMesh → Int → AbstractMesh)
    (find : C → Vertices → Bool → Bool × Bool × C)
    (s : Submesh C V) (mesh : AbstractMesh) (trianglesChanged : Bool) :
    Bool × Bool × Submesh C V × AbstractMesh × List MeshCall :=
  let v := Submesh.vertices reserve mesh 0 mesh.getVertexCount
  let r := find s.mTriangles v.1 trianglesChanged
  (r.1, r.2.1, { s with mTriangles := r.2.2 }, v.2.1, v.2.2)

/-! ## Properties of graphics.h -/

theorem and_or_eq_zero_iff (f a b : Nat) :
    f &&& (a ||| b) = 0 ↔ f &&& a = 0 ∧ f &&& b = 0 := by
  constructor
  · intro h
    constructor
    · apply Nat.eq_of_testBit_eq
      intro i
      have hi := congrArg (fun x => Nat.testBit x i) h
      simp only [Nat.testBit_and, Nat.testBit_or, Nat.zero_testBit] at hi ⊢
      cases hf : f.testBit i <;> cases ha : a.testBit i <;> simp_all
    · apply Nat.eq_of_testBit_eq
      intro i
      have hi := congrArg (fun x => Nat.testBit x i) h
      simp only [Nat.testBit_and, Nat.testBit_or, Nat.zero_testBit] at hi ⊢
      cases hf : f.testBit i <;> cases hb : b.testBit i <;> simp_all
  · rintro ⟨ha, hb⟩
    rw [Nat.and_or_distrib_left, ha, hb]
    rfl

/-- C1: `Graphics::changed` ORs the argument into the stored mask, adding
`BOUNDS | EXACT_BOUNDS` exactly when the argument has one of GEOMETRY, POINTS
or BOUNDS set; the paths are untouched and no bit of the old mask is cleared. -/
theorem Graphics.changed_promotes {P : Type} (K : ChangeFlagBits) (g : Graphics P) (f : Nat) :
    (g.changed K f).changes =
        (if f &&& K.CHANGED_GEOMETRY ≠ 0 ∨ f &&& K.CHANGED_POINTS ≠ 0 ∨
            f &&& K.CHANGED_BOUNDS ≠ 0 then
          g.changes ||| f ||| (K.CHANGED_BOUNDS ||| K.CHANGED_EXACT_BOUNDS)
        else g.changes ||| f) ∧
      (g.changed K f).paths = g.paths ∧
      (g.changed K f).changes &&& g.changes = g.changes ∧
      ∀ i, g.changes.testBit i = true → (g.changed K f).changes.testBit i = true := by
  have hcond : f &&& (K.CHANGED_GEOMETRY ||| K.CHANGED_POINTS ||| K.CHANGED_BOUNDS) ≠ 0 ↔
      (f &&& K.CHANGED_GEOMETRY ≠ 0 ∨ f &&& K.CHANGED_POINTS ≠ 0 ∨
        f &&& K.CHANGED_BOUNDS ≠ 0) := by
    rw [Ne, and_or_eq_zero_iff, and_or_eq_zero_iff]
    tauto
  refine ⟨?_, rfl, ?_, ?_⟩
  · unfold Graphics.changed
    by_cases h : f &&& (K.CHANGED_GEOMETRY ||| K.CHANGED_POINTS ||| K.CHANGED_BOUNDS) ≠ 0
    · rw [if_pos (hcond.mp h)]
      simp only [if_pos h]
      rw [Nat.or_assoc]
    · rw [if_neg (fun hc => h (hcond.mpr hc))]
      simp only [if_neg h]
  · apply Nat.eq_of_testBit_eq
    intro i
    unfold Graphics.changed
    simp only [Nat.testBit_and, Nat.testBit_or]
    cases g.changes.testBit i <;> simp
  · intro i hi
    unfold Graphics.changed
    simp only [Nat.testBit_or, hi, Bool.true_or]

/-- C1 at concrete flag values: adding POINTS (4) to the mask 3 gives
`3 | 4 | 32 | 64`, and bit 0 of the old mask is still set. -/
theorem Graphics.changed_promotes_witness :
    (⟨[()], 3⟩ : Graphics Unit).changes.testBit 0 = true ∧
      ((⟨[()], 3⟩ : Graphics Unit).changed sampleFlags 4).changes.testBit 0 = true ∧
      ((⟨[()], 3⟩ : Graphics Unit).changed sampleFlags 4).changes = 103 :=
  ⟨by decide,
    (Graphics.changed_promotes sampleFlags (⟨[()], 3⟩ : Graphics Unit) 4).2.2.2 0 (by decide),
    by decide⟩

/-- C2: after `changed(POINTS)`, `fetchChanges(BOUNDS)` returns exactly the
BOUNDS flag, whatever the earlier mask was and whether or not the fetch clears
everything, as long as POINTS is a non-empty flag. -/
theorem Graphics.fetch_bounds_after_points {P : Type} (K : ChangeFlagBits)
    (hP : K.CHANGED_POINTS ≠ 0) (g : Graphics P) (clearAll : Bool) :
    ((g.changed K K.CHANGED_POINTS).fetchChanges K.CHANGED_BOUNDS clearAll).1 =
        K.CHANGED_BOUNDS ∧
      ((g.changed K K.CHANGED_POINTS).fetchChanges K.CHANGED_BOUNDS clearAll).1 &&&
        K.CHANGED_BOUNDS = K.CHANGED_BOUNDS := by
  have hc : K.CHANGED_POINTS &&&
      (K.CHANGED_GEOMETRY ||| K.CHANGED_POINTS ||| K.CHANGED_BOUNDS) ≠ 0 := by
    intro h
    rw [and_or_eq_zero_iff, and_or_eq_zero_iff] at h
    exact hP (by simpa [Nat.and_self] using h.1.2)
  have hval : ((g.changed K K.CHANGED_POINTS).fetchChanges K.CHANGED_BOUNDS clearAll).1 =
      K.CHANGED_BOUNDS := by
    unfold Graphics.fetchChanges Graphics.changed
    simp only [if_pos hc]
    apply Nat.eq_of_testBit_eq
    intro i
    simp only [Nat.testBit_and, Nat.testBit_or]
    cases K.CHANGED_BOUNDS.testBit i <;> simp
  exact ⟨hval, by rw [hval, Nat.and_self]⟩

/-- C2 at concrete flag values. -/
theorem Graphics.fetch_bounds_after_points_witness :
    (⟨8, 4, 32, 64⟩ : ChangeFlagBits).CHANGED_POINTS ≠ 0 ∧
      ((((⟨[()], 1⟩ : Graphics Unit).changed ⟨8, 4, 32, 64⟩ 4).fetchChanges 32 false).1 = 32 ∧
        (((⟨[()], 1⟩ : Graphics Unit).changed ⟨8, 4, 32, 64⟩ 4).fetchChanges 32 false).1 &&&
          32 = 32) :=
  ⟨by decide, Graphics.fetch_bounds_after_points ⟨8, 4, 32, 64⟩ (by decide) ⟨[()], 1⟩ false⟩

theorem stdMin_eq_min {α : Type} [LinearOrder α] (a b : α) : stdMin a b = min a b := by
  unfold stdMin
  by_cases h : b < a
  · rw [if_pos h, min_eq_right (le_of_lt h)]
  · rw [if_neg h, min_eq_left (not_lt.mp h)]

theorem stdMax_eq_max {α : Type} [LinearOrder α] (a b : α) : stdMax a b = max a b := by
  unfold stdMax
  by_cases h : a < b
  · rw [if_pos h, max_eq_right (le_of_lt h)]
  · rw [if_neg h, max_eq_left (not_lt.mp h)]

theorem foldl_min_spec {P α : Type} [LinearOrder α] (f : P → α) (l : List P) (a : α) :
    (l.foldl (fun acc p => min acc (f p)) a = a ∨
        ∃ p ∈ l, l.foldl (fun acc p => min acc (f p)) a = f p) ∧
      l.foldl (fun acc p => min acc (f p)) a ≤ a ∧
      ∀ p ∈ l, l.foldl (fun acc p => min acc (f p)) a ≤ f p := by
  induction l generalizing a with
  | nil => simp
  | cons q rest ih =>
    obtain ⟨h1, h2, h3⟩ := ih (min a (f q))
    simp only [List.foldl_cons, List.mem_cons]
    refine ⟨?_, le_trans h2 (min_le_left _ _), ?_⟩
    · rcases h1 with h | ⟨p, hp, h⟩
      · rcases min_choice a (f q) with hm | hm
        · left; rw [h, hm]
        · right; exact ⟨q, Or.inl rfl, by rw [h, hm]⟩
      · right; exact ⟨p, Or.inr hp, h⟩
    · intro p hp
      rcases hp with rfl | hp
      · exact le_trans h2 (min_le_right _ _)
      · exact h3 p hp

theorem foldl_max_spec {P α : Type} [LinearOrder α] (f : P → α) (l : List P) (a : α) :
    (l.foldl (fun acc p => max acc (f p)) a = a ∨
        ∃ p ∈ l, l.foldl (fun acc p => max acc (f p)) a = f p) ∧
      a ≤ l.foldl (fun acc p => max acc (f p)) a ∧
      ∀ p ∈ l, f p ≤ l.foldl (fun acc p => max acc (f p)) a := by
  induction l generalizing a with
  | nil => simp
  | cons q rest ih =>
    obtain ⟨h1, h2, h3⟩ := ih (max a (f q))
    simp only [List.foldl_cons, List.mem_cons]
    refine ⟨?_, le_trans (le_max_left _ _) h2, ?_⟩
    · rcases h1 with h | ⟨p, hp, h⟩
      · rcases max_choice a (f q) with hm | hm
        · left; rw [h, hm]
        · right; exact ⟨q, Or.inl rfl, by rw [h, hm]⟩
      · right; exact ⟨p, Or.inr hp, h⟩
    · intro p hp
      rcases hp with rfl | hp
      · exact le_trans (le_max_right _ _) h2
      · exact h3 p hp

theorem computeBoundsLoop_succ {P α : Type} [LinearOrder α] (get : P → Bounds α)
    (rest : List P) (i : Nat) (b : Bounds α) :
    computeBoundsLoop get (i + 1) rest b =
      { b0 := rest.foldl (fun acc p => min acc (get p).b0) b.b0
        b1 := rest.foldl (fun acc p => min acc (get p).b1) b.b1
        b2 := rest.foldl (fun acc p => max acc (get p).b2) b.b2
        b3 := rest.foldl (fun acc p => max acc (get p).b3) b.b3 } := by
  induction rest generalizing i b with
  | nil => rfl
  | cons q rest ih =>
    rw [computeBoundsLoop]
    simp only [Nat.add_one_ne_zero, if_false, List.foldl_cons]
    rw [ih]
    simp only [stdMin_eq_min, stdMax_eq_max]

theorem computeBoundsLoop_zero_cons {P α : Type} [LinearOrder α] (get : P → Bounds α)
    (p : P) (rest : List P) (b : Bounds α) :
    computeBoundsLoop get 0 (p :: rest) b = computeBoundsLoop get 1 rest (get p) := by
  rw [computeBoundsLoop]
  simp

theorem computeBoundsLoop_isUnionBox {P α : Type} [LinearOrder α] (get : P → Bounds α)
    (paths : List P) (h : paths ≠ []) (b : Bounds α) :
    IsUnionBox get paths (computeBoundsLoop get 0 paths b) := by
  cases paths with
  | nil => exact absurd rfl h
  | cons p rest =>
    rw [computeBoundsLoop_zero_cons, computeBoundsLoop_succ]
    obtain ⟨a0, -, c0⟩ := foldl_min_spec (fun q => (get q).b0) rest (get p).b0
    obtain ⟨a1, -, c1⟩ := foldl_min_spec (fun q => (get q).b1) rest (get p).b1
    obtain ⟨a2, -, c2⟩ := foldl_max_spec (fun q => (get q).b2) rest (get p).b2
    obtain ⟨a3, -, c3⟩ := foldl_max_spec (fun q => (get q).b3) rest (get p).b3
    have l0 := (foldl_min_spec (fun q => (get q).b0) rest (get p).b0).2.1
    have l1 := (foldl_min_spec (fun q => (get q).b1) rest (get p).b1).2.1
    have l2 := (foldl_max_spec (fun q => (get q).b2) rest (get p).b2).2.1
    have l3 := (foldl_max_spec (fun q => (get q).b3) rest (get p).b3).2.1
    refine ⟨⟨?_, ?_⟩, ⟨?_, ?_⟩, ⟨?_, ?_⟩, ⟨?_, ?_⟩⟩
    · rcases a0 with e | ⟨q, hq, e⟩
      · exact ⟨p, List.mem_cons_self _ _, e⟩
      · exact ⟨q, List.mem_cons_of_mem _ hq, e⟩
    · intro q hq
      rcases List.mem_cons.mp hq with rfl | hq
      · exact l0
      · exact c0 q hq
    · rcases a1 with e | ⟨q, hq, e⟩
      · exact ⟨p, List.mem_cons_self _ _, e⟩
      · exact ⟨q, List.mem_cons_of_mem _ hq, e⟩
    · intro q hq
      rcases List.mem_cons.mp hq with rfl | hq
      · exact l1
      · exact c1 q hq
    · rcases a2 with e | ⟨q, hq, e⟩
      · exact ⟨p, List.mem_cons_self _ _, e⟩
      · exact ⟨q, List.mem_cons_of_mem _ hq, e⟩
    · intro q hq
      rcases List.mem_cons.mp hq with rfl | hq
      · exact l2
      · exact c2 q hq
    · rcases a3 with e | ⟨q, hq, e⟩
      · exact ⟨p, List.mem_cons_self _ _, e⟩
      · exact ⟨q, List.mem_cons_of_mem _ hq, e⟩
    · intro q hq
      rcases List.mem_cons.mp hq with rfl | hq
      · exact l3
      · exact c3 q hq

theorem isUnionBox_unique {P α : Type} [LinearOrder α] (get : P → Bounds α)
    (l l2 : List P) (hmem : ∀ p, p ∈ l ↔ p ∈ l2) (r r2 : Bounds α)
    (h : IsUnionBox get l r) (h2 : IsUnionBox get l2 r2) : r = r2 := by
  obtain ⟨⟨⟨p0, hp0, e0⟩, m0⟩, ⟨⟨p1, hp1, e1⟩, m1⟩, ⟨⟨p2, hp2, e2⟩, m2⟩, ⟨⟨p3, hp3, e3⟩, m3⟩⟩ := h
  obtain ⟨⟨⟨q0, hq0, f0⟩, n0⟩, ⟨⟨q1, hq1, f1⟩, n1⟩, ⟨⟨q2, hq2, f2⟩, n2⟩, ⟨⟨q3, hq3, f3⟩, n3⟩⟩ := h2
  have k0 : r.b0 = r2.b0 :=
    le_antisymm (f0 ▸ m0 q0 ((hmem q0).mpr hq0)) (e0 ▸ n0 p0 ((hmem p0).mp hp0))
  have k1 : r.b1 = r2.b1 :=
    le_antisymm (f1 ▸ m1 q1 ((hmem q1).mpr hq1)) (e1 ▸ n1 p1 ((hmem p1).mp hp1))
  have k2 : r.b2 = r2.b2 :=
    le_antisymm (e2 ▸ n2 p2 ((hmem p2).mp hp2)) (f2 ▸ m2 q2 ((hmem q2).mpr hq2))
  have k3 : r.b3 = r2.b3 :=
    le_antisymm (e3 ▸ n3 p3 ((hmem p3).mp hp3)) (f3 ▸ m3 q3 ((hmem q3).mpr hq3))
  cases r
  cases r2
  simp only [Bounds.mk.injEq]
  exact ⟨k0, k1, k2, k3⟩

/-- C10: over totally ordered coordinates, `Graphics::computeBounds` leaves the
output untouched for an empty path list, and for a non-empty one writes the
union box of the per-path boxes (coordinate-wise minimum of `b0`, `b1` and
maximum of `b2`, `b3`, each attained by some path), which therefore contains
every path's box and depends neither on the previous output contents nor on
the order of the paths. -/
theorem Graphics.computeBounds_union {P α : Type} [LinearOrder α] (g : Graphics P)
    (get : P → Bounds α) (bounds : Bounds α) :
    (g.paths = [] → g.computeBounds bounds get = bounds) ∧
      (g.paths ≠ [] → IsUnionBox get g.paths (g.computeBounds bounds get)) ∧
      (g.paths ≠ [] → ∀ p ∈ g.paths,
        (g.computeBounds bounds get).b0 ≤ (get p).b0 ∧
        (g.computeBounds bounds get).b1 ≤ (get p).b1 ∧
        (get p).b2 ≤ (g.computeBounds bounds get).b2 ∧
        (get p).b3 ≤ (g.computeBounds bounds get).b3) ∧
      (g.paths ≠ [] → ∀ other : Bounds α,
        g.computeBounds other get = g.computeBounds bounds get) ∧
      (g.paths ≠ [] → ∀ (g2 : Graphics P) (other : Bounds α), g2.paths.Perm g.paths →
        g2.computeBounds other get = g.computeBounds bounds get) := by
  refine ⟨?_, ?_, ?_, ?_, ?_⟩
  · intro h
    unfold Graphics.computeBounds
    rw [h]
    rfl
  · intro h
    exact computeBoundsLoop_isUnionBox get g.paths h bounds
  · intro h p hp
    obtain ⟨⟨-, m0⟩, ⟨-, m1⟩, ⟨-, m2⟩, ⟨-, m3⟩⟩ :=
      computeBoundsLoop_isUnionBox get g.paths h bounds
    exact ⟨m0 p hp, m1 p hp, m2 p hp, m3 p hp⟩
  · intro h other
    exact isUnionBox_unique get g.paths g.paths (fun _ => Iff.rfl) _ _
      (computeBoundsLoop_isUnionBox get g.paths h other)
      (computeBoundsLoop_isUnionBox get g.paths h bounds)
  · intro h g2 other hperm
    have h2 : g2.paths ≠ [] := by
      intro hnil
      rw [hnil] at hperm
      exact h (List.Perm.nil_eq hperm).symm
    exact isUnionBox_unique get g2.paths g.paths (fun _ => hperm.mem_iff) _ _
      (computeBoundsLoop_isUnionBox get g2.paths h2 other)
      (computeBoundsLoop_isUnionBox get g.paths h bounds)

/-- C10 on two concrete boxes. -/
theorem Graphics.computeBounds_union_witness :
    (⟨[⟨0, 0, 1, 1⟩, ⟨-1, 2, 3, 1⟩], 0⟩ : Graphics (Bounds Int)).paths ≠ [] ∧
      (⟨[⟨0, 0, 1, 1⟩, ⟨-1, 2, 3, 1⟩], 0⟩ : Graphics (Bounds Int)).computeBounds
        ⟨5, 5, 5, 5⟩ id = ⟨-1, 0, 3, 1⟩ ∧
      IsUnionBox id [⟨0, 0, 1, 1⟩, ⟨-1, 2, 3, 1⟩]
        ((⟨[⟨0, 0, 1, 1⟩, ⟨-1, 2, 3, 1⟩], 0⟩ : Graphics (Bounds Int)).computeBounds
          ⟨5, 5, 5, 5⟩ id) :=
  ⟨by decide, by decide,
    (Graphics.computeBounds_union (⟨[⟨0, 0, 1, 1⟩, ⟨-1, 2, 3, 1⟩], 0⟩ : Graphics (Bounds Int))
      id ⟨5, 5, 5, 5⟩).2.1 (by decide)⟩

/-! ## Properties of trajectory.h -/

/-- C3: `getLoveNumPoints` is `npts - 1` for a closed trajectory with at least
one point and `npts` otherwise; for a non-negative `npts` it lies between `0`
and `npts`. -/
theorem Trajectory.getLoveNumPoints_spec {V : Type} (t : Trajectory V) :
    (t.nsvg.closed = true ∧ t.nsvg.npts ≥ 1 → t.getLoveNumPoints = t.nsvg.npts - 1) ∧
      (¬ (t.nsvg.closed = true ∧ t.nsvg.npts ≥ 1) → t.getLoveNumPoints = t.nsvg.npts) ∧
      (0 ≤ t.nsvg.npts → 0 ≤ t.getLoveNumPoints ∧ t.getLoveNumPoints ≤ t.nsvg.npts) := by
  unfold Trajectory.getLoveNumPoints Trajectory.isClosed Trajectory.getNumPoints
  cases hc : t.nsvg.closed
  · refine ⟨?_, ?_, ?_⟩
    · rintro ⟨h, -⟩
      exact absurd h (by simp)
    · intro _
      simp
    · intro h
      simp [h]
  · by_cases hn : t.nsvg.npts > 0
    · simp only [Bool.true_and, decide_eq_true_eq, hn, if_true, true_and]
      refine ⟨fun _ => trivial, ?_, ?_⟩
      · intro h
        omega
      · intro _
        omega
    · simp only [Bool.true_and, decide_eq_true_eq, hn, if_false, true_and]
      refine ⟨?_, fun _ => trivial, ?_⟩
      · intro h
        omega
      · intro h
        omega

/-- C3 on a closed trajectory of two points. -/
theorem Trajectory.getLoveNumPoints_spec_witness :
    (sampleTrajectory.nsvg.closed = true ∧ sampleTrajectory.nsvg.npts ≥ 1) ∧
      sampleTrajectory.getLoveNumPoints = 1 ∧
      (0 ≤ sampleTrajectory.getLoveNumPoints ∧
        sampleTrajectory.getLoveNumPoints ≤ sampleTrajectory.nsvg.npts) :=
  ⟨by decide, (Trajectory.getLoveNumPoints_spec sampleTrajectory).1 (by decide),
    (Trajectory.getLoveNumPoints_spec sampleTrajectory).2.2 (by decide)⟩

theorem Trajectory.commit_clean {V : Type} (ext : Ext V) (t : Trajectory V)
    (h : t.dirty &&& DIRTY_COMMANDS = 0) : t.commit ext = (t, []) := by
  unfold Trajectory.commit
  rw [if_neg (fun hc => hc h)]

theorem Trajectory.commit_dirty {V : Type} (ext : Ext V) (t : Trajectory V)
    (h : t.dirty &&& DIRTY_COMMANDS ≠ 0) :
    t.commit ext = (t.withMutable (ext.updateCommands t), [Call.updateCommands]) := by
  unfold Trajectory.commit
  rw [if_pos h]

theorem Trajectory.getValue_clean {V : Type} [Zero V] (ext : Ext V) (t : Trajectory V)
    (h : t.dirty &&& DIRTY_COMMANDS = 0) (i : Int) (hi : 0 ≤ i ∧ i < t.nsvg.npts * 2)
    (w : V) (hw : t.nsvg.pts[i.toNat]? = some w) :
    t.getValue ext i = Except.ok (w, t, []) := by
  unfold Trajectory.getValue
  rw [if_pos (show i ≥ 0 ∧ i < t.nsvg.npts * 2 from hi)]
  simp only [Trajectory.commit_clean ext t h, hw]

/-- C4 (as stated, refuted): on a clean trajectory of two points, reading at
index `-1` returns `0` and writing at index `4` completes normally; neither
call fails, and the trajectory is as before. -/
theorem Trajectory.out_of_range_not_a_failure :
    ((-1 : Int) < 0 ∧ (4 : Int) ≥ sampleTrajectory.nsvg.npts * 2) ∧
      sampleTrajectory.getValue sampleExt (-1) = Except.ok (0, sampleTrajectory, []) ∧
      sampleTrajectory.setValue sampleFlags sampleExt 4 99 =
        Except.ok (sampleTrajectory, []) := by
  refine ⟨by decide, ?_, ?_⟩
  · rfl
  · rfl

/-- C4 (amended): an out-of-range index is tolerated silently: `getValue`
returns `0.0` and `setValue` returns normally, both leaving the trajectory
unchanged and calling neither `commit`'s recomputation nor `changed`. -/
theorem Trajectory.out_of_range_ignored {V : Type} [Zero V] (K : ChangeFlagBits) (ext : Ext V)
    (t : Trajectory V) (i : Int) (v : V) (h : i < 0 ∨ i ≥ t.nsvg.npts * 2) :
    t.getValue ext i = Except.ok (0, t, []) ∧
      t.setValue K ext i v = Except.ok (t, []) := by
  have hn : ¬ (i ≥ 0 ∧ i < t.nsvg.npts * 2) := by
    rintro ⟨h0, h1⟩
    rcases h with h | h <;> omega
  constructor
  · unfold Trajectory.getValue
    rw [if_neg hn]
  · unfold Trajectory.setValue
    rw [if_neg hn]

/-- C4 (amended) on a trajectory with dirty commands and index `4` of `4`. -/
theorem Trajectory.out_of_range_ignored_witness :
    ((4 : Int) < 0 ∨ (4 : Int) ≥ dirtyTrajectory.nsvg.npts * 2) ∧
      dirtyTrajectory.getValue sampleExt 4 = Except.ok (0, dirtyTrajectory, []) ∧
      dirtyTrajectory.setValue sampleFlags sampleExt 4 99 = Except.ok (dirtyTrajectory, []) :=
  ⟨by decide,
    Trajectory.out_of_range_ignored sampleFlags sampleExt dirtyTrajectory 4 99 (by decide)⟩

/-- C6: on a trajectory with clean commands whose buffer holds its `npts`
points, and with a `changed` that leaves `nsvg` alone and does not mark the
commands dirty, an in-range `setValue(i, v)` succeeds, calls exactly
`changed(CHANGED_POINTS)`, keeps the point count, makes `getValue(i)` return
`v` and leaves `getValue(j)` as it was for every other in-range `j`; an
out-of-range `setValue` changes nothing and calls nothing. -/
theorem Trajectory.setValue_getValue {V : Type} [Zero V] (K : ChangeFlagBits) (ext : Ext V)
    (hframe : ∀ f u, (ext.changed f u).nsvg = u.nsvg)
    (hkeep : ∀ f u, u.dirty &&& DIRTY_COMMANDS = 0 →
      (ext.changed f u).dirty &&& DIRTY_COMMANDS = 0)
    (t : Trajectory V) (hclean : t.dirty &&& DIRTY_COMMANDS = 0)
    (hbuf : t.nsvg.npts * 2 ≤ t.nsvg.pts.length) (i : Int) (v : V) :
    (0 ≤ i ∧ i < t.nsvg.npts * 2 →
        ∃ t2, t.setValue K ext i v = Except.ok (t2, [Call.changed K.CHANGED_POINTS]) ∧
          t2.getValue ext i = Except.ok (v, t2, []) ∧
          t2.getNumPoints = t.getNumPoints ∧
          ∀ j : Int, 0 ≤ j → j < t.nsvg.npts * 2 → j ≠ i →
            ∃ w, t.getValue ext j = Except.ok (w, t, []) ∧
              t2.getValue ext j = Except.ok (w, t2, [])) ∧
      (¬ (0 ≤ i ∧ i < t.nsvg.npts * 2) → t.setValue K ext i v = Except.ok (t, [])) := by
  constructor
  · rintro ⟨h0, h1⟩
    have hlen : i.toNat < t.nsvg.pts.length := by omega
    let t1 : Trajectory V := { t with nsvg := { t.nsvg with pts := t.nsvg.pts.set i.toNat v } }
    have hset : t.setValue K ext i v =
        Except.ok (ext.changed K.CHANGED_POINTS t1, [Call.changed K.CHANGED_POINTS]) := by
      unfold Trajectory.setValue
      rw [if_pos (show i ≥ 0 ∧ i < t.nsvg.npts * 2 from ⟨h0, h1⟩)]
      simp only [Trajectory.commit_clean ext t hclean, if_pos hlen, List.nil_append]
    have hns : (ext.changed K.CHANGED_POINTS t1).nsvg = t1.nsvg := hframe _ _
    have hcl : (ext.changed K.CHANGED_POINTS t1).dirty &&& DIRTY_COMMANDS = 0 :=
      hkeep _ _ hclean
    have hpts : (ext.changed K.CHANGED_POINTS t1).nsvg.pts = t.nsvg.pts.set i.toNat v := by
      rw [hns]
    have hnp : (ext.changed K.CHANGED_POINTS t1).nsvg.npts = t.nsvg.npts := by
      rw [hns]
    refine ⟨ext.changed K.CHANGED_POINTS t1, hset, ?_, ?_, ?_⟩
    · apply Trajectory.getValue_clean ext _ hcl i (by rw [hnp]; exact ⟨h0, h1⟩)
      rw [hpts, List.getElem?_set_self hlen]
    · unfold Trajectory.getNumPoints
      exact hnp
    · intro j hj0 hj1 hji
      have hjlen : j.toNat < t.nsvg.pts.length := by omega
      have hne : i.toNat ≠ j.toNat := by omega
      refine ⟨t.nsvg.pts[j.toNat], ?_, ?_⟩
      · exact Trajectory.getValue_clean ext t hclean j ⟨hj0, hj1⟩ _
          (List.getElem?_eq_getElem hjlen)
      · apply Trajectory.getValue_clean ext _ hcl j (by rw [hnp]; exact ⟨hj0, hj1⟩)
        rw [hpts, List.getElem?_set_ne hne, List.getElem?_eq_getElem hjlen]
  · intro hn
    unfold Trajectory.setValue
    rw [if_neg (show ¬ (i ≥ 0 ∧ i < t.nsvg.npts * 2) from hn)]

theorem or_and_distrib_right (a b c : Nat) : (a ||| b) &&& c = a &&& c ||| b &&& c := by
  apply Nat.eq_of_testBit_eq
  intro i
  simp only [Nat.testBit_and, Nat.testBit_or]
  cases a.testBit i <;> cases b.testBit i <;> cases c.testBit i <;> rfl

theorem sampleExt_changed_keeps_commands (f : Nat) (u : Trajectory Int)
    (h : u.dirty &&& DIRTY_COMMANDS = 0) :
    (sampleExt.changed f u).dirty &&& DIRTY_COMMANDS = 0 := by
  show (u.dirty ||| 13) &&& DIRTY_COMMANDS = 0
  rw [or_and_distrib_right, h]
  rfl

/-- C6 on the two-point trajectory: writing `77` at index `1`. -/
theorem Trajectory.setValue_getValue_witness :
    (sampleTrajectory.dirty &&& DIRTY_COMMANDS = 0 ∧
        sampleTrajectory.nsvg.npts * 2 ≤ sampleTrajectory.nsvg.pts.length ∧
        (0 ≤ (1 : Int) ∧ (1 : Int) < sampleTrajectory.nsvg.npts * 2)) ∧
      ∃ t2, sampleTrajectory.setValue sampleFlags sampleExt 1 77 =
            Except.ok (t2, [Call.changed sampleFlags.CHANGED_POINTS]) ∧
          t2.getValue sampleExt 1 = Except.ok (77, t2, []) ∧
          t2.getNumPoints = sampleTrajectory.getNumPoints ∧
          ∀ j : Int, 0 ≤ j → j < sampleTrajectory.nsvg.npts * 2 → j ≠ 1 →
            ∃ w, sampleTrajectory.getValue sampleExt j = Except.ok (w, sampleTrajectory, []) ∧
              t2.getValue sampleExt j = Except.ok (w, t2, []) :=
  ⟨⟨by decide, by decide, by decide, by decide⟩,
    (Trajectory.setValue_getValue sampleFlags sampleExt (fun _ _ => rfl)
      sampleExt_changed_keeps_commands sampleTrajectory (by decide) (by decide) 1 77).1
      ⟨by decide, by decide⟩⟩

theorem Trajectory.commit_result_clean {V : Type} (ext : Ext V)
    (hclear : ∀ u, (ext.updateCommands u).dirty &&& DIRTY_COMMANDS = 0) (t : Trajectory V) :
    (t.commit ext).1.dirty &&& DIRTY_COMMANDS = 0 ∧
      (t.commit ext).1.nsvg.npts = t.nsvg.npts ∧
      (t.commit ext).2.length ≤ 1 := by
  by_cases h : t.dirty &&& DIRTY_COMMANDS = 0
  · rw [Trajectory.commit_clean ext t h]
    exact ⟨h, rfl, by simp⟩
  · rw [Trajectory.commit_dirty ext t h]
    exact ⟨hclear t, rfl, by simp⟩

/-- C8: `commit` calls `updateCommands` exactly when `DIRTY_COMMANDS` is set and
`ensureCurveData(flags)` calls `updateCurveData(flags)` exactly when the dirty
mask meets `flags`. When each recomputation clears the bits it serves, a
second `ensureCurveData`, `getPoints` or `getValue` right after the first
recomputes nothing, changes no state and returns the same result, so the two
calls together recompute at most once; on a clean trajectory already the
first call changes no state. -/
theorem Trajectory.commit_lazy_idempotent {V : Type} [Zero V] (ext : Ext V)
    (hclear : ∀ u, (ext.updateCommands u).dirty &&& DIRTY_COMMANDS = 0)
    (hcurve : ∀ flags u, (ext.updateCurveData flags u).dirty &&& flags = 0)
    (t : Trajectory V) :
    (t.dirty &&& DIRTY_COMMANDS ≠ 0 →
        t.commit ext = (t.withMutable (ext.updateCommands t), [Call.updateCommands])) ∧
      (t.dirty &&& DIRTY_COMMANDS = 0 → t.commit ext = (t, [])) ∧
      (∀ flags, t.dirty &&& flags ≠ 0 → t.ensureCurveData ext flags =
        (t.withMutable (ext.updateCurveData flags t), [Call.updateCurveData flags])) ∧
      (∀ flags, t.dirty &&& flags = 0 → t.ensureCurveData ext flags = (t, [])) ∧
      (∀ flags, (t.ensureCurveData ext flags).1.ensureCurveData ext flags =
        ((t.ensureCurveData ext flags).1, [])) ∧
      ((t.getPoints ext).2.1.getPoints ext = ((t.getPoints ext).1, (t.getPoints ext).2.1, []) ∧
        ((t.getPoints ext).2.2 ++ ((t.getPoints ext).2.1.getPoints ext).2.2).length ≤ 1) ∧
      (∀ i w t1 c1, t.getValue ext i = Except.ok (w, t1, c1) →
        t1.getValue ext i = Except.ok (w, t1, []) ∧ c1.length ≤ 1) ∧
      (t.dirty &&& DIRTY_COMMANDS = 0 →
        t.getPoints ext = (t.nsvg.pts, t, []) ∧
        ∀ i w t1 c1, t.getValue ext i = Except.ok (w, t1, c1) → t1 = t ∧ c1 = []) := by
  have hensure : ∀ flags, t.dirty &&& flags = 0 → t.ensureCurveData ext flags = (t, []) := by
    intro flags h
    unfold Trajectory.ensureCurveData
    rw [if_neg (fun hc => hc h)]
  have hensure2 : ∀ flags, t.dirty &&& flags ≠ 0 → t.ensureCurveData ext flags =
      (t.withMutable (ext.updateCurveData flags t), [Call.updateCurveData flags]) := by
    intro flags h
    unfold Trajectory.ensureCurveData
    rw [if_pos h]
  obtain ⟨hc1, hc2, hc3⟩ := Trajectory.commit_result_clean ext hclear t
  have hsecond : (t.commit ext).1.commit ext = ((t.commit ext).1, []) :=
    Trajectory.commit_clean ext _ hc1
  refine ⟨Trajectory.commit_dirty ext t, Trajectory.commit_clean ext t, hensure2, hensure,
    ?_, ⟨?_, ?_⟩, ?_, ?_⟩
  · intro flags
    by_cases h : t.dirty &&& flags = 0
    · rw [hensure flags h]
      exact hensure flags h
    · rw [hensure2 flags h]
      unfold Trajectory.ensureCurveData
      rw [if_neg (fun hc => hc (hcurve flags t))]
  · unfold Trajectory.getPoints
    simp only [hsecond]
  · unfold Trajectory.getPoints
    simp only [hsecond, List.append_nil]
    exact hc3
  · intro i w t1 c1 hget
    unfold Trajectory.getValue at hget
    by_cases hi : i ≥ 0 ∧ i < t.nsvg.npts * 2
    · rw [if_pos hi] at hget
      cases hp : (t.commit ext).1.nsvg.pts[i.toNat]? with
      | none =>
        simp only [hp] at hget
        cases hget
      | some x =>
        simp only [hp] at hget
        injection hget with hget
        injection hget with hw hrest
        injection hrest with ht1 hcalls
        subst hw ht1 hcalls
        refine ⟨?_, by simpa using hc3⟩
        exact Trajectory.getValue_clean ext _ hc1 i (by rw [hc2]; exact hi) _ hp
    · rw [if_neg hi] at hget
      injection hget with hget
      injection hget with hw hrest
      injection hrest with ht1 hcalls
      subst hw ht1 hcalls
      refine ⟨?_, by simp⟩
      unfold Trajectory.getValue
      rw [if_neg hi]
  · intro hcl
    have hcm := Trajectory.commit_clean ext t hcl
    constructor
    · unfold Trajectory.getPoints
      rw [hcm]
    · intro i w t1 c1 hget
      unfold Trajectory.getValue at hget
      rw [hcm] at hget
      by_cases hi : i ≥ 0 ∧ i < t.nsvg.npts * 2
      · rw [if_pos hi] at hget
        cases hp : t.nsvg.pts[i.toNat]? with
        | none =>
          simp only [hp] at hget
          cases hget
        | some x =>
          simp only [hp] at hget
          injection hget with hget
          injection hget with hw hrest
          injection hrest with ht1 hcalls
          exact ⟨ht1.symm, hcalls.symm⟩
      · rw [if_neg hi] at hget
        injection hget with hget
        injection hget with hw hrest
        injection hrest with ht1 hcalls
        exact ⟨ht1.symm, hcalls.symm⟩

/-- C8 on the two-point trajectory with dirty commands: the first read of index
`3` recomputes once, the second not at all, and both return `40`. -/
theorem Trajectory.commit_lazy_idempotent_witness :
    dirtyTrajectory.dirty &&& DIRTY_COMMANDS ≠ 0 ∧
      dirtyTrajectory.commit sampleExt =
        (dirtyTrajectory.withMutable (sampleExt.updateCommands dirtyTrajectory),
          [Call.updateCommands]) ∧
      dirtyTrajectory.getValue sampleExt 3 =
        Except.ok (40, sampleTrajectory, [Call.updateCommands]) ∧
      (sampleTrajectory.getValue sampleExt 3 = Except.ok (40, sampleTrajectory, []) ∧
        [Call.updateCommands].length ≤ 1) :=
  ⟨by decide,
    (Trajectory.commit_lazy_idempotent sampleExt (fun _ => Nat.zero_and _)
      (fun flags _ => Nat.zero_and flags) dirtyTrajectory).1 (by decide),
    rfl,
    (Trajectory.commit_lazy_idempotent sampleExt (fun _ => Nat.zero_and _)
      (fun flags _ => Nat.zero_and flags) dirtyTrajectory).2.2.2.2.2.2.1
      3 40 sampleTrajectory [Call.updateCommands] rfl⟩

/-! ## Properties of mesh/mesh.h -/

theorem AbstractMesh.vertexByteSize_eq (m : AbstractMesh) (hcount : 0 ≤ m.mVertexCount)
    (hprod : (m.mStride : Int) * m.mVertexCount < 2 ^ 31) :
    (m.vertexByteSize : Int) = (m.mStride : Int) * m.mVertexCount := by
  unfold AbstractMesh.vertexByteSize
  have h0 : 0 ≤ (m.mStride : Int) * m.mVertexCount :=
    Int.mul_nonneg (Int.ofNat_nonneg _) hcount
  rw [Int.emod_eq_of_lt h0 (by omega), Int.toNat_of_nonneg h0]

/-- C5: for a mesh with a non-negative vertex count whose byte size fits an
`int`, `copyVertexData` succeeds exactly when `bufferByteSize` equals
`stride * vertexCount`; it then overwrites the first `bufferByteSize` bytes of
the destination with the first `bufferByteSize` bytes of the vertex buffer and
returns the mesh unchanged; for any other size the assertion fails. -/
theorem AbstractMesh.copyVertexData_spec (m : AbstractMesh) (hcount : 0 ≤ m.mVertexCount)
    (hprod : (m.mStride : Int) * m.mVertexCount < 2 ^ 31) (buffer : List Nat)
    (bufferByteSize : Nat) :
    ((∃ r, m.copyVertexData buffer bufferByteSize = Except.ok r) ↔
        (bufferByteSize : Int) = (m.mStride : Int) * m.mVertexCount) ∧
      ((bufferByteSize : Int) = (m.mStride : Int) * m.mVertexCount →
        m.copyVertexData buffer bufferByteSize =
          Except.ok (m.mVertices.take bufferByteSize ++ buffer.drop bufferByteSize, m)) ∧
      ((bufferByteSize : Int) ≠ (m.mStride : Int) * m.mVertexCount →
        m.copyVertexData buffer bufferByteSize = Except.error Fault.assertionFailed) ∧
      (∀ out m2, m.copyVertexData buffer bufferByteSize = Except.ok (out, m2) →
        bufferByteSize ≤ m.mVertices.length → bufferByteSize ≤ buffer.length →
        m2 = m ∧ out.length = buffer.length ∧
          out.take bufferByteSize = m.mVertices.take bufferByteSize ∧
          out.drop bufferByteSize = buffer.drop bufferByteSize) := by
  have hsize := AbstractMesh.vertexByteSize_eq m hcount hprod
  have hiff : bufferByteSize = m.vertexByteSize ↔
      (bufferByteSize : Int) = (m.mStride : Int) * m.mVertexCount := by
    rw [← hsize]
    exact Int.ofNat_inj.symm
  have hok : (bufferByteSize : Int) = (m.mStride : Int) * m.mVertexCount →
      m.copyVertexData buffer bufferByteSize =
        Except.ok (m.mVertices.take bufferByteSize ++ buffer.drop bufferByteSize, m) := by
    intro h
    have h2 := hiff.mpr h
    unfold AbstractMesh.copyVertexData
    simp only [← h2, if_true]
  have herr : (bufferByteSize : Int) ≠ (m.mStride : Int) * m.mVertexCount →
      m.copyVertexData buffer bufferByteSize = Except.error Fault.assertionFailed := by
    intro h
    have h2 : ¬ bufferByteSize = m.vertexByteSize := fun hc => h (hiff.mp hc)
    unfold AbstractMesh.copyVertexData
    simp only [if_neg h2]
  refine ⟨⟨?_, fun h => ⟨_, hok h⟩⟩, hok, herr, ?_⟩
  · rintro ⟨r, hr⟩
    by_contra hne
    rw [herr hne] at hr
    cases hr
  · intro out m2 hcopy hv hb
    by_cases heq : (bufferByteSize : Int) = (m.mStride : Int) * m.mVertexCount
    · rw [hok heq] at hcopy
      injection hcopy with hcopy
      injection hcopy with hout hm
      subst hout hm
      have hlen : (List.take bufferByteSize m.mVertices).length = bufferByteSize := by
        rw [List.length_take]
        omega
      refine ⟨rfl, ?_, ?_, ?_⟩
      · rw [List.length_append, hlen, List.length_drop]
        omega
      · rw [List.take_append_of_le_length (by omega), List.take_take, min_self]
      · rw [List.drop_append_of_le_length (by omega), List.drop_eq_nil_of_le (by omega),
          List.nil_append]
    · rw [herr heq] at hcopy
      cases hcopy

/-- C5 on a mesh of two vertices with stride 3 and a 6-byte destination. -/
theorem AbstractMesh.copyVertexData_spec_witness :
    (0 ≤ sampleMesh.mVertexCount ∧
        (sampleMesh.mStride : Int) * sampleMesh.mVertexCount < 2 ^ 31 ∧
        ((6 : Nat) : Int) = (sampleMesh.mStride : Int) * sampleMesh.mVertexCount) ∧
      sampleMesh.copyVertexData [0, 0, 0, 0, 0, 0] 6 =
        Except.ok (sampleMesh.mVertices.take 6 ++ [0, 0, 0, 0, 0, 0].drop 6, sampleMesh) ∧
      sampleMesh.copyVertexData [0, 0, 0, 0, 0, 0] 6 =
        Except.ok ([1, 2, 3, 4, 5, 6], sampleMesh) ∧
      sampleMesh.copyVertexData [0, 0, 0, 0, 0] 5 = Except.error Fault.assertionFailed :=
  ⟨⟨by decide, by decide, by decide⟩,
    (AbstractMesh.copyVertexData_spec sampleMesh (by decide) (by decide)
      [0, 0, 0, 0, 0, 0] 6).2.1 (by decide),
    rfl, rfl⟩

/-- C9: `Submesh::findCachedTriangulation` makes no call to `reserve` and hands
back the mesh exactly as it was, so the vertex count is unchanged; in general
`AbstractMesh::vertices(from, n)` calls `reserve(from + n)` when `from + n`
exceeds the vertex count and otherwise calls nothing and leaves the mesh
alone; `clip(n)` sets the vertex count to `min(count, n)`, never above the old
count, and touches nothing else. -/
theorem Submesh.findCachedTriangulation_keeps_mesh {C V : Type}
    (reserve : AbstractMesh → Int → AbstractMesh)
    (find : C → Vertices → Bool → Bool × Bool × C)
    (s : Submesh C V) (mesh : AbstractMesh) (trianglesChanged : Bool) :
    ((Submesh.findCachedTriangulation reserve find s mesh trianglesChanged).2.2.2.2 = [] ∧
        (Submesh.findCachedTriangulation reserve find s mesh trianglesChanged).2.2.2.1 = mesh ∧
        (Submesh.findCachedTriangulation reserve find s mesh
          trianglesChanged).2.2.2.1.getVertexCount = mesh.getVertexCount) ∧
      (∀ first n : Int,
        (first + n > mesh.mVertexCount →
          (mesh.vertices reserve first n).2 =
            (reserve mesh (first + n), [MeshCall.reserve (first + n)])) ∧
        (¬ first + n > mesh.mVertexCount → (mesh.vertices reserve first n).2 = (mesh, [])) ∧
        (MeshCall.reserve (first + n) ∈ (mesh.vertices reserve first n).2.2 ↔
          first + n > mesh.mVertexCount)) ∧
      (∀ n : Int,
        (mesh.clip n).mVertexCount = min mesh.mVertexCount n ∧
        (mesh.clip n).mVertexCount ≤ mesh.mVertexCount ∧
        (mesh.clip n).mVertices = mesh.mVertices ∧
        (mesh.clip n).mStride = mesh.mStride) := by
  have hno : ¬ (0 + mesh.getVertexCount > mesh.mVertexCount) := by
    unfold AbstractMesh.getVertexCount
    omega
  refine ⟨?_, ?_, ?_⟩
  · unfold Submesh.findCachedTriangulation Submesh.vertices AbstractMesh.vertices
    simp only [if_neg hno]
    exact ⟨trivial, trivial, trivial⟩
  · intro first n
    unfold AbstractMesh.vertices
    by_cases h : first + n > mesh.mVertexCount
    · simp only [if_pos h]
      refine ⟨fun _ => trivial, fun hc => absurd h hc, ?_⟩
      simp [h]
    · simp only [if_neg h]
      refine ⟨fun hc => absurd hc h, fun _ => trivial, ?_⟩
      simp [h]
  · intro n
    unfold AbstractMesh.clip
    simp only [stdMin_eq_min]
    exact ⟨trivial, min_le_left _ _, trivial, trivial⟩

/-- C9 on the two-vertex mesh: asking for vertices `0..2` calls nothing, asking
for `1..3` calls `reserve(3)`, and the cached lookup leaves the count at 2. -/
theorem Submesh.findCachedTriangulation_keeps_mesh_witness :
    (¬ ((0 : Int) + 2 > sampleMesh.mVertexCount) ∧ (1 : Int) + 2 > sampleMesh.mVertexCount) ∧
      (sampleMesh.vertices sampleReserve 0 2).2 = (sampleMesh, []) ∧
      (sampleMesh.vertices sampleReserve 1 2).2 =
        (sampleReserve sampleMesh (1 + 2), [MeshCall.reserve (1 + 2)]) ∧
      (Submesh.findCachedTriangulation sampleReserve (fun (c : Nat) _ b => (true, b, c))
        (⟨0, ⟨0, [], [], [], 0, []⟩⟩ : Submesh Nat Int) sampleMesh
          false).2.2.2.1.getVertexCount = 2 :=
  ⟨by decide,
    ((Submesh.findCachedTriangulation_keeps_mesh sampleReserve (fun (c : Nat) _ b => (true, b, c))
      (⟨0, ⟨0, [], [], [], 0, []⟩⟩ : Submesh Nat Int) sampleMesh false).2.1 0 2).2.1 (by decide),
    ((Submesh.findCachedTriangulation_keeps_mesh sampleReserve (fun (c : Nat) _ b => (true, b, c))
      (⟨0, ⟨0, [], [], [], 0, []⟩⟩ : Submesh Nat Int) sampleMesh false).2.1 1 2).1 (by decide),
    (Submesh.findCachedTriangulation_keeps_mesh sampleReserve (fun (c : Nat) _ b => (true, b, c))
      (⟨0, ⟨0, [], [], [], 0, []⟩⟩ : Submesh Nat Int) sampleMesh false).1.2.2⟩

end Tove
